import Mathlib

/-!
Verification of the MSGviewer email parsing and normalization pipeline.

The development shallowly embeds the TypeScript sources:
* `src/lib/parsers/eml-parser.ts` (`parseEMLFile`, RFC 822 text parsing),
* `src/lib/msg-parser.ts` (its internal `parseEMLFile` variant and the
  MSG-normalization part of `parseEmailFile`),
* `src/App.tsx` (`createSafeHTMLPreview`, the regex-based HTML cleaning).

Strings are modelled as Lean `String`s, with the operations that the
JavaScript code uses (`split`, `trim`, `substring`, `indexOf`, `replace`,
regex tests, truthiness on strings) translated to explicit functions over
`List Char`.  Absent (`undefined`) string-valued fields of the decoder output
are modelled as `""`, which behaves identically under the truthiness and
`||` / `substring` operations the code applies to them; the byte-array
fields (`html`, `compressedRtf`), whose JavaScript truthiness is presence,
are modelled as `Option` / `Bool`.
-/

/-- The set of characters matched by JavaScript `\s` and removed by
`String.prototype.trim` (ASCII whitespace, line terminators and the Unicode
space separators). -/
def isJsWhite (c : Char) : Bool :=
  c.toNat = 9 || c.toNat = 10 || c.toNat = 11 || c.toNat = 12 ||
  c.toNat = 13 || c.toNat = 32 || c.toNat = 0xa0 || c.toNat = 0x1680 ||
  (0x2000 ≤ c.toNat && c.toNat ≤ 0x200a) || c.toNat = 0x2028 ||
  c.toNat = 0x2029 || c.toNat = 0x202f || c.toNat = 0x205f ||
  c.toNat = 0x3000 || c.toNat = 0xfeff

/-- JavaScript `String.prototype.trim`: drop leading and trailing
whitespace. -/
def jsTrim (l : List Char) : List Char :=
  ((l.dropWhile isJsWhite).reverse.dropWhile isJsWhite).reverse

/-- Auxiliary for `content.split(/\r?\n/)`: a `"\r\n"` pair or a lone
`"\n"` separates lines; a `"\r"` not followed by `"\n"` is ordinary text. -/
def splitLinesAux : List Char → List Char → List (List Char)
  | [], acc => [acc.reverse]
  | '\r' :: '\n' :: rest, acc => acc.reverse :: splitLinesAux rest []
  | '\n' :: rest, acc => acc.reverse :: splitLinesAux rest []
  | c :: rest, acc => splitLinesAux rest (c :: acc)

/-- JavaScript `content.split(/\r?\n/)`. -/
def splitLines (l : List Char) : List (List Char) :=
  splitLinesAux l []

/-- Auxiliary for the test `line.match(/^[^\s]+:/)`: `seen` records whether
at least one non-whitespace character has been consumed.  The pattern
matches exactly when some position `j ≥ 1` holds `':'` with all characters
before it non-whitespace (`':'` itself may occur among them). -/
def startsHeaderAux : List Char → Bool → Bool
  | [], _ => false
  | c :: rest, seen =>
    if seen && c = ':' then true
    else if isJsWhite c then false
    else startsHeaderAux rest true

/-- JavaScript `line.match(/^[^\s]+:/) !== null`. -/
def startsNewHeader (l : List Char) : Bool :=
  startsHeaderAux l false

/-- JavaScript `line.match(/^\s/) !== null`. -/
def startsWithWhite (l : List Char) : Bool :=
  match l with
  | [] => false
  | c :: _ => isJsWhite c

/-- `line.substring(0, line.indexOf(':'))` and
`line.substring(line.indexOf(':') + 1)` in one step.  When no colon is
present (JS `indexOf` = -1, `substring(0,-1) = ""`, `substring(0)` = whole
line) the result is `([], l)`; the parser only reaches this after
`startsNewHeader` succeeded, so a colon is in fact present. -/
def splitAtFirstColon (l : List Char) : List Char × List Char :=
  match l.span (fun c => c ≠ ':') with
  | (before, ':' :: after) => (before, after)
  | (_, _) => ([], l)

/-- JavaScript `Array.prototype.join('\n')`. -/
def joinNL : List (List Char) → List Char
  | [] => []
  | [l] => l
  | l :: rest => l ++ '\n' :: joinNL rest

/-- JavaScript `s.substring(0, n)` for `n ≥ 0`. -/
def jsSubstring (s : String) (n : Nat) : String :=
  String.mk (s.data.take n)

/-- The literal appended by the parsers when the body exceeds the 1 MB cap. -/
def truncMarker : String :=
  "\n\n[Content truncated for security reasons]"

/-- The body-size cap shared by both parsers:
`if (body.length > 1000000) body = body.substring(0, 1000000) + marker`. -/
def truncateBody (s : String) : String :=
  if 1000000 < s.length then jsSubstring s 1000000 ++ truncMarker else s

/-- `MSGHeader` of `src/lib/msg-parser.ts`: one extracted header. -/
structure MSGHeader where
  name : String
  value : String
deriving DecidableEq, Repr

/-- The `'MSG' | 'EML'` tag of `MSGContent.fileType`. -/
inductive FileType where
  | MSG
  | EML
deriving DecidableEq, Repr

/-- `MSGContent` of `src/lib/msg-parser.ts`: the normalized parse result.
The TypeScript field `from` is a Lean keyword and is rendered `fromAddr`. -/
structure MSGContent where
  headers : List MSGHeader
  body : String
  subject : String
  fromAddr : String
  toAddr : String
  date : String
  fileType : FileType
deriving DecidableEq, Repr

/-- The mutable locals of the `parseEMLFile` line loop. -/
structure EMLState where
  headerSection : Bool
  curName : List Char
  curValue : List Char
  headers : List MSGHeader
  subject : List Char
  fromAddr : List Char
  toAddr : List Char
  date : List Char
  bodyLines : List (List Char)

/-- Initial loop state of `parseEMLFile`. -/
def emlInit : EMLState :=
  ⟨true, [], [], [], [], [], [], [], []⟩

/-- The header-flush block of `parseEMLFile` (repeated verbatim in the
source at the blank line, at the start of a new header, and after the
loop): sanitize the pending name and value, and when both survive, append
the header and update the matching convenience scalar.  `san` is the
name-sanitization step, which differs between the two source variants. -/
def flushHeader (san : List Char → List Char) (st : EMLState) : EMLState :=
  if st.curName ≠ [] ∧ st.curValue ≠ [] then
    let sName := san st.curName
    let sValue := (jsTrim st.curValue).take 2000
    if sName ≠ [] ∧ sValue ≠ [] then
      let lowerName := sName.map Char.toLower
      { st with
        headers := st.headers ++ [⟨String.mk sName, String.mk sValue⟩],
        subject := if lowerName = "subject".data then sValue else st.subject,
        fromAddr := if lowerName = "from".data then sValue else st.fromAddr,
        toAddr := if lowerName = "to".data then sValue else st.toAddr,
        date := if lowerName = "date".data then sValue else st.date }
    else st
  else st

/-- One iteration of the `parseEMLFile` line loop. -/
def emlStep (san : List Char → List Char) (st : EMLState) (line : List Char) :
    EMLState :=
  if st.headerSection then
    if jsTrim line = [] then
      { flushHeader san st with headerSection := false }
    else if startsNewHeader line && !startsWithWhite line then
      let st := flushHeader san st
      let nv := splitAtFirstColon line
      { st with curName := jsTrim nv.1, curValue := jsTrim nv.2 }
    else if startsWithWhite line && !(st.curName = []) then
      { st with curValue := st.curValue ++ ' ' :: jsTrim line }
    else st
  else
    { st with bodyLines := st.bodyLines ++ [line] }

/-- Final assembly of the `MSGContent` record returned by `parseEMLFile`:
join the body lines, apply the 1 MB body cap, and apply the header-count
and scalar-length caps. -/
def finalizeEML (st : EMLState) : MSGContent :=
  { headers := st.headers.take 1000
    body := truncateBody (String.mk (joinNL st.bodyLines))
    subject := String.mk (st.subject.take 500)
    fromAddr := String.mk (st.fromAddr.take 200)
    toAddr := String.mk (st.toAddr.take 200)
    date := String.mk (st.date.take 100)
    fileType := FileType.EML }

/-- The line loop of `parseEMLFile` followed by the post-loop flush
(`if (headerSection && currentHeaderName && currentHeaderValue)` — the
flush itself re-checks that name and value are non-empty). -/
def emlFinalState (san : List Char → List Char) (content : String) :
    EMLState :=
  let st := (splitLines content.data).foldl (emlStep san) emlInit
  if st.headerSection then flushHeader san st else st

/-- The shared body of the two `parseEMLFile` variants: split into lines,
run the line loop, flush the last pending header if the input ended inside
the header section, and assemble the result. -/
def parseEMLCore (san : List Char → List Char) (content : String) :
    MSGContent :=
  finalizeEML (emlFinalState san content)

/-- Name sanitization of `src/lib/parsers/eml-parser.ts`:
`currentHeaderName.trim().substring(0, 500)`. -/
def sanNameEml (n : List Char) : List Char :=
  (jsTrim n).take 500

/-- Name sanitization of the `parseEMLFile` variant inside
`src/lib/msg-parser.ts`:
`currentHeaderName.replace(/[<>]/g, '').substring(0, 500)`. -/
def sanNameMsg (n : List Char) : List Char :=
  (n.filter (fun c => !(c = '<' || c = '>'))).take 500

/-- `parseEMLFile` of `src/lib/parsers/eml-parser.ts`. -/
def parseEMLFile (content : String) : MSGContent :=
  parseEMLCore sanNameEml content

/-- The `parseEMLFile` variant defined inside `src/lib/msg-parser.ts`
(used by `parseEmailFile` for `.eml` inputs); it differs from the
`eml-parser.ts` variant only in the name sanitization. -/
def parseEMLFileMsg (content : String) : MSGContent :=
  parseEMLCore sanNameMsg content

/-- One entry of `msgData.recipients` as used by `parseEmailFile`
(`recipType?`, `email?`, `name?`).  An absent (`undefined`) field is
modelled as `""`: every use in the source (`!recipient.recipType`,
`recipient.email || recipient.name`, `.filter(Boolean)`) treats `""` and
`undefined` identically. -/
structure Recipient where
  recipType : String
  email : String
  name : String
deriving DecidableEq, Repr

/-- The fields of `msgReader.getFileData()` that `parseEmailFile` reads.
String fields model `undefined` as `""` (see `Recipient`); `html` is a byte
buffer decoded as UTF-8 whose JavaScript truthiness is presence, hence
`Option`; `compressedRtf` is only tested for presence, hence `Bool`. -/
structure MsgData where
  headers : String
  recipients : List Recipient
  body : String
  bodyHtml : String
  html : Option String
  compressedRtf : Bool
  subject : String
  senderEmail : String
  senderName : String
  messageDeliveryTime : String
  clientSubmitTime : String
deriving DecidableEq, Repr

/-- One line of the raw-header-blob loop of `parseEmailFile`
(`src/lib/msg-parser.ts`): skip blank lines, require the first colon at an
index greater than 0, trim the two sides, delete `<` and `>` from the name,
cap lengths and keep the header only when both sides survive. -/
def msgHeaderStep (acc : List MSGHeader) (line : List Char) :
    List MSGHeader :=
  if jsTrim line = [] then acc
  else
    match line.span (fun c => c ≠ ':') with
    | (before, ':' :: after) =>
      if before = [] then acc
      else
        let name := jsTrim before
        let value := jsTrim after
        let sName := (name.filter (fun c => !(c = '<' || c = '>'))).take 500
        let sValue := value.take 2000
        if sName ≠ [] ∧ sValue ≠ [] then
          acc ++ [⟨String.mk sName, String.mk sValue⟩]
        else acc
    | (_, _) => acc

/-- The raw-header-blob tier of `parseEmailFile`: split the blob on line
boundaries and process each line with `msgHeaderStep`. -/
def parseMsgHeaders (hs : String) : List MSGHeader :=
  (splitLines hs.data).foldl msgHeaderStep []

/-- JavaScript `recipient.email || recipient.name`. -/
def addressOrName (r : Recipient) : String :=
  if r.email ≠ "" then r.email else r.name

/-- JavaScript `Array.prototype.join(', ')`. -/
def joinCommaSpace : List String → String
  | [] => ""
  | [s] => s
  | s :: rest => s ++ ", " ++ joinCommaSpace rest

/-- The `toEmails` computation of `parseEmailFile`: filter the recipients
to recipient-type `"to"` or unspecified, map to address-or-name, drop the
falsy (empty) entries, keep the first 10 and join with `", "`. -/
def toEmails (rs : List Recipient) : String :=
  joinCommaSpace
    ((((rs.filter (fun r => r.recipType = "to" || r.recipType = "")).map
        addressOrName).filter (fun s => s ≠ "")).take 10)

/-- The body-selection chain of `parseEmailFile`: `body`, then `bodyHtml`,
then the decoded `html` buffer, then the RTF placeholder. -/
def msgBody (d : MsgData) : String :=
  if d.body ≠ "" then d.body
  else if d.bodyHtml ≠ "" then d.bodyHtml
  else
    match d.html with
    | some h => h
    | none =>
      if d.compressedRtf then "[RTF content detected - not displayed]"
      else ""

/-- The MSG-normalization part of `parseEmailFile`
(`src/lib/msg-parser.ts`, the `.msg` branch of `reader.onload`): build the
`MSGContent` record from the decoder output. -/
def parseMsgData (d : MsgData) : MSGContent :=
  let headers := if d.headers ≠ "" then parseMsgHeaders d.headers else []
  { headers := headers.take 1000
    body := truncateBody (msgBody d)
    subject := jsSubstring d.subject 500
    fromAddr :=
      jsSubstring (if d.senderEmail ≠ "" then d.senderEmail else d.senderName)
        200
    toAddr := toEmails d.recipients
    date :=
      jsSubstring
        (if d.messageDeliveryTime ≠ "" then d.messageDeliveryTime
         else d.clientSubmitTime) 100
    fileType := FileType.MSG }

/-- The `.msg` branch of `parseEmailFile` with the binary decoder
abstracted: the decoder either yields its structured output or throws
(modelled as `Except.error` carrying the thrown detail).  The `catch`
block of the source rejects with the fixed message
`'Failed to parse email file'`, discarding the thrown detail. -/
def parseEmailFileMSG (decode : Except String MsgData) :
    Except String MSGContent :=
  match decode with
  | Except.ok d => Except.ok (parseMsgData d)
  | Except.error _ => Except.error "Failed to parse email file"

/-- The double-quote character (written via its code point to keep string
and character syntax simple). -/
def dQuote : Char := Char.ofNat 34

/-- The single-quote character. -/
def sQuote : Char := Char.ofNat 39

/-- The character class `["']` of the attribute-stripping regexes. -/
def isQuoteChar (c : Char) : Bool :=
  c = dQuote || c = sQuote

/-- JavaScript `\w` (the class `[A-Za-z0-9_]`). -/
def isWordChar (c : Char) : Bool :=
  (65 ≤ c.toNat && c.toNat ≤ 90) || (97 ≤ c.toNat && c.toNat ≤ 122) ||
  (48 ≤ c.toNat && c.toNat ≤ 57) || c.toNat = 95

/-- Case-insensitive literal match at the head: when `l` starts with `pat`
up to case, return the rest of `l`. -/
def matchCI : List Char → List Char → Option (List Char)
  | [], l => some l
  | _ :: _, [] => none
  | p :: ps, c :: cs => if p.toLower = c.toLower then matchCI ps cs else none

/-- Find the earliest (case-insensitive) occurrence of `pat` and return the
suffix after it; `none` when `pat` does not occur.  This is the semantics
of a lazy `.*?pat` tail with the `s` flag: the match extends to the first
occurrence of `pat`. -/
def dropAfterCI (pat : List Char) : List Char → Option (List Char)
  | [] => none
  | c :: cs =>
    match matchCI pat (c :: cs) with
    | some rest => some rest
    | none => dropAfterCI pat cs

/-- Head match for a block regex `openPat[^>]*>.*?closePat` (`gis` flags),
e.g. `/<script[^>]*>.*?<\/script>/`: the open literal, a maximal run of
non-`>` characters (a shorter run would leave a non-`>` character where
`>` is required, so maximal munch is exact), a `>`, then everything up to
the earliest close literal. -/
def tryTagBlock (openPat closePat : List Char) (l : List Char) :
    Option (List Char) :=
  match matchCI openPat l with
  | none => none
  | some r1 =>
    match r1.dropWhile (fun c => c ≠ '>') with
    | '>' :: r3 => dropAfterCI closePat r3
    | _ => none

/-- Head match for the tail `\s*=\s*["'][^"']*["']` shared by the
event-handler and `style`-attribute regexes.  Each starred class is
disjoint from the character that must follow it (`\s` from `=` and the
quotes, `[^"']` from the quotes), so maximal munch needs no
backtracking. -/
def tryAttrTail (l : List Char) : Option (List Char) :=
  match l.dropWhile isJsWhite with
  | '=' :: r2 =>
    match r2.dropWhile isJsWhite with
    | q :: r4 =>
      if isQuoteChar q then
        match r4.dropWhile (fun c => !(isQuoteChar c)) with
        | q2 :: r6 => if isQuoteChar q2 then some r6 else none
        | [] => none
      else none
    | [] => none
  | _ => none

/-- Head match for `/on\w+\s*=\s*["'][^"']*["']/gi` (the event-handler
stripping): `on`, at least one word character (maximal munch is exact
since `\w` is disjoint from `\s` and `=`), then the attribute tail. -/
def tryEventHandler (l : List Char) : Option (List Char) :=
  match matchCI ("on".data) l with
  | none => none
  | some r1 =>
    if r1.takeWhile isWordChar = [] then none
    else tryAttrTail (r1.dropWhile isWordChar)

/-- Head match for `/style\s*=\s*["'][^"']*["']/gi`. -/
def tryStyleAttr (l : List Char) : Option (List Char) :=
  match matchCI ("style".data) l with
  | none => none
  | some r1 => tryAttrTail r1

/-- Head match for `/<script[^>]*>.*?<\/script>/gis`. -/
def tryScriptBlock (l : List Char) : Option (List Char) :=
  tryTagBlock ("<script".data) ("</script>".data) l

/-- Head match for `/<style[^>]*>.*?<\/style>/gis`. -/
def tryStyleBlock (l : List Char) : Option (List Char) :=
  tryTagBlock ("<style".data) ("</style>".data) l

/-- Head match for the literal `/javascript:/gi`. -/
def tryJavascriptURL (l : List Char) : Option (List Char) :=
  matchCI ("javascript:".data) l

/-- Head match for the literal `/data:/gi`. -/
def tryDataURL (l : List Char) : Option (List Char) :=
  matchCI ("data:".data) l

/-- Global `replace(re, '')`: scan left to right; at each position take the
match starting there if any (continuing after it), otherwise keep the
character.  `fuel` bounds the recursion; every successful head match
consumes at least one character, so the initial fuel `l.length` set by
`replaceScan` is never exhausted. -/
def replaceScanAux (try1 : List Char → Option (List Char)) :
    Nat → List Char → List Char
  | 0, l => l
  | _ + 1, [] => []
  | fuel + 1, c :: cs =>
    match try1 (c :: cs) with
    | some rest => replaceScanAux try1 fuel rest
    | none => c :: replaceScanAux try1 fuel cs

/-- JavaScript `s.replace(re, '')` with the `g` flag, for the head
matchers above. -/
def replaceScan (try1 : List Char → Option (List Char)) (l : List Char) :
    List Char :=
  replaceScanAux try1 l.length l

/-- The `cleaned` chain of `createSafeHTMLPreview` (`src/App.tsx`): strip
script blocks, style blocks, inline event handlers, `javascript:` and
`data:` URL schemes, and `style` attributes, in the order of the source. -/
def cleanHTML (s : String) : String :=
  String.mk
    (replaceScan tryStyleAttr
      (replaceScan tryDataURL
        (replaceScan tryJavascriptURL
          (replaceScan tryEventHandler
            (replaceScan tryStyleBlock
              (replaceScan tryScriptBlock s.data))))))

/-- The fixed document text of `createSafeHTMLPreview` before the
interpolated `cleaned` content. -/
def docHead : String :=
  "\n    <!DOCTYPE html>\n    <html>\n    <head>\n      <meta charset=\"UTF-8\">\n      <meta name=\"viewport\" content=\"width=device-width, initial-scale=1.0\">\n      <style>\n        body \x7b \n          font-family: Arial, sans-serif; \n          font-size: 14px; \n          line-height: 1.4; \n          margin: 10px; \n          background: white;\n          color: black;\n        \x7d\n        img \x7b max-width: 100%; height: auto; \x7d\n        table \x7b border-collapse: collapse; width: 100%; \x7d\n        td, th \x7b border: 1px solid #ddd; padding: 4px; \x7d\n      </style>\n    </head>\n    <body>\n      "

/-- The fixed document text of `createSafeHTMLPreview` after the
interpolated `cleaned` content. -/
def docTail : String :=
  "\n    </body>\n    </html>\n  "

/-- `createSafeHTMLPreview` of `src/App.tsx`: the cleaning chain wrapped
in the fixed document template. -/
def createSafeHTMLPreview (html : String) : String :=
  docHead ++ cleanHTML html ++ docTail

/-- The spec's EML round-trip input: a folded continuation after
`Subject`, a blank line, then one body line. -/
def emlFoldedInput : String :=
  "Subject: Hello\r\n X: a\r\n  b\r\n\r\nBody line"

/-- The spec's no-blank-line regression input. -/
def emlNoBlankInput : String :=
  "Subject: Hi\r\nFrom: a@b.com"

/-- A body one character past the 1 MB cap. -/
def bigBody : String :=
  String.mk (List.replicate 1000001 'a')

/-- Decoder output whose only content is the over-long plain body. -/
def msgDataBigBody : MsgData :=
  ⟨"", [], bigBody, "", none, false, "", "", "", "", ""⟩

/-- A single `"to"` recipient whose address is 201 characters long. -/
def longRecipient : Recipient :=
  ⟨"to", String.mk (List.replicate 201 'a'), ""⟩

/-- Decoder output whose only content is the one long recipient. -/
def msgDataLongTo : MsgData :=
  ⟨"", [longRecipient], "", "", none, false, "", "", "", "", ""⟩

/-- Fifteen `"to"` recipients with addresses `e1` … `e15`. -/
def recips15 : List Recipient :=
  [⟨"to", "e1", ""⟩, ⟨"to", "e2", ""⟩, ⟨"to", "e3", ""⟩, ⟨"to", "e4", ""⟩,
   ⟨"to", "e5", ""⟩, ⟨"to", "e6", ""⟩, ⟨"to", "e7", ""⟩, ⟨"to", "e8", ""⟩,
   ⟨"to", "e9", ""⟩, ⟨"to", "e10", ""⟩, ⟨"to", "e11", ""⟩, ⟨"to", "e12", ""⟩,
   ⟨"to", "e13", ""⟩, ⟨"to", "e14", ""⟩, ⟨"to", "e15", ""⟩]

/-- Decoder output whose only content is the fifteen `"to"` recipients. -/
def msgData15To : MsgData :=
  ⟨"", recips15, "", "", none, false, "", "", "", "", ""⟩

/-- The `to` scalar as the spec describes it (refinement reference,
written from the spec's words, to be compared with `toEmails` from the
source): filter the recipient list to entries whose recipient-type is
`"to"` or unspecified, take address-or-name, drop empties, cap at 10,
join with `", "`. -/
def toScalarSpec (rs : List Recipient) : String :=
  joinCommaSpace
    ((((rs.filter (fun r => r.recipType = "to" ∨ r.recipType = "")).map
        addressOrName).filter (fun s => s ≠ "")).take 10)

/-- The spec's sandboxed-HTML stripping example. -/
def sanitizeExampleInput : String :=
  "<div onclick='x()'>ok<script>evil()</script></div>"

/-- Length of a `String` built from an explicit character list. -/
theorem strMk_length (l : List Char) : (String.mk l).length = l.length :=
  rfl

/-- The headers appended by `flushHeader` all have the shape
`⟨String.mk (san n), String.mk ((jsTrim v).take 2000)⟩`; a predicate that
holds on every header of that shape is preserved. -/
theorem flushHeader_pred (san : List Char → List Char)
    (P : MSGHeader → Prop)
    (hP : ∀ n v, P ⟨String.mk (san n), String.mk ((jsTrim v).take 2000)⟩)
    (st : EMLState) (hinv : ∀ h ∈ st.headers, P h) :
    ∀ h ∈ (flushHeader san st).headers, P h := by
  unfold flushHeader
  dsimp only
  split
  · split
    · intro h hm
      simp only [List.mem_append, List.mem_singleton] at hm
      rcases hm with hm | hm
      · exact hinv h hm
      · subst hm
        exact hP _ _
    · exact hinv
  · exact hinv

/-- Header predicates preserved by `flushHeader` are preserved by each
iteration of the `parseEMLFile` line loop. -/
theorem emlStep_pred (san : List Char → List Char)
    (P : MSGHeader → Prop)
    (hP : ∀ n v, P ⟨String.mk (san n), String.mk ((jsTrim v).take 2000)⟩)
    (st : EMLState) (line : List Char) (hinv : ∀ h ∈ st.headers, P h) :
    ∀ h ∈ (emlStep san st line).headers, P h := by
  unfold emlStep
  dsimp only
  split
  · split
    · exact flushHeader_pred san P hP st hinv
    · split
      · exact flushHeader_pred san P hP st hinv
      · split
        · exact hinv
        · exact hinv
  · exact hinv

/-- Header predicates preserved by the loop body are preserved by the
whole line loop. -/
theorem emlFold_pred (san : List Char → List Char)
    (P : MSGHeader → Prop)
    (hP : ∀ n v, P ⟨String.mk (san n), String.mk ((jsTrim v).take 2000)⟩) :
    ∀ (lines : List (List Char)) (st : EMLState),
      (∀ h ∈ st.headers, P h) →
      ∀ h ∈ (lines.foldl (emlStep san) st).headers, P h := by
  intro lines
  induction lines with
  | nil => intro st hinv; exact hinv
  | cons line rest ih =>
    intro st hinv
    exact ih _ (emlStep_pred san P hP st line hinv)

/-- Every header of the final loop state satisfies any predicate holding
on all `flushHeader`-shaped headers. -/
theorem emlFinalState_pred (san : List Char → List Char)
    (P : MSGHeader → Prop)
    (hP : ∀ n v, P ⟨String.mk (san n), String.mk ((jsTrim v).take 2000)⟩)
    (content : String) :
    ∀ h ∈ (emlFinalState san content).headers, P h := by
  unfold emlFinalState
  dsimp only
  have hfold :=
    emlFold_pred san P hP (splitLines content.data) emlInit
      (by intro h hm; simp [emlInit] at hm)
  split
  · exact flushHeader_pred san P hP _ hfold
  · exact hfold

/-- Every header of a `parseEMLCore` result satisfies any predicate
holding on all `flushHeader`-shaped headers. -/
theorem parseEMLCore_pred (san : List Char → List Char)
    (P : MSGHeader → Prop)
    (hP : ∀ n v, P ⟨String.mk (san n), String.mk ((jsTrim v).take 2000)⟩)
    (content : String) :
    ∀ h ∈ (parseEMLCore san content).headers, P h := by
  intro h hm
  have hm' : h ∈ (emlFinalState san content).headers :=
    List.take_subset 1000 _ hm
  exact emlFinalState_pred san P hP content h hm'

/-- The headers appended by `msgHeaderStep` all have the shape
`⟨String.mk (((jsTrim b).filter ...).take 500), String.mk ((jsTrim a).take 2000)⟩`;
a predicate holding on every header of that shape is preserved. -/
theorem msgHeaderStep_pred (P : MSGHeader → Prop)
    (hP : ∀ b a,
      P ⟨String.mk
            (((jsTrim b).filter (fun c => !(c = '<' || c = '>'))).take 500),
          String.mk ((jsTrim a).take 2000)⟩)
    (acc : List MSGHeader) (line : List Char) (hinv : ∀ h ∈ acc, P h) :
    ∀ h ∈ msgHeaderStep acc line, P h := by
  unfold msgHeaderStep
  dsimp only
  split
  · exact hinv
  · split
    · split
      · exact hinv
      · split
        · intro h hm
          simp only [List.mem_append, List.mem_singleton] at hm
          rcases hm with hm | hm
          · exact hinv h hm
          · subst hm
            exact hP _ _
        · exact hinv
    · exact hinv

/-- Every header of `parseMsgHeaders` satisfies any predicate holding on
all `msgHeaderStep`-shaped headers. -/
theorem parseMsgHeaders_pred (P : MSGHeader → Prop)
    (hP : ∀ b a,
      P ⟨String.mk
            (((jsTrim b).filter (fun c => !(c = '<' || c = '>'))).take 500),
          String.mk ((jsTrim a).take 2000)⟩)
    (hs : String) : ∀ h ∈ parseMsgHeaders hs, P h := by
  unfold parseMsgHeaders
  have main :
      ∀ (lines : List (List Char)) (acc : List MSGHeader),
        (∀ h ∈ acc, P h) → ∀ h ∈ lines.foldl msgHeaderStep acc, P h := by
    intro lines
    induction lines with
    | nil => intro acc hinv; exact hinv
    | cons line rest ih =>
      intro acc hinv
      exact ih _ (msgHeaderStep_pred P hP acc line hinv)
  exact main _ [] (by intro h hm; simp at hm)

/-- Every header of a `parseMsgData` result satisfies any predicate
holding on all `msgHeaderStep`-shaped headers. -/
theorem parseMsgData_pred (P : MSGHeader → Prop)
    (hP : ∀ b a,
      P ⟨String.mk
            (((jsTrim b).filter (fun c => !(c = '<' || c = '>'))).take 500),
          String.mk ((jsTrim a).take 2000)⟩)
    (d : MsgData) : ∀ h ∈ (parseMsgData d).headers, P h := by
  intro h hm
  have hm' : h ∈ (if d.headers ≠ "" then parseMsgHeaders d.headers else []) :=
    List.take_subset 1000 _ hm
  revert hm'
  split
  · exact fun hm' => parseMsgHeaders_pred P hP _ h hm'
  · intro hm'
    simp at hm'

/-- Length of a string concatenation. -/
theorem string_length_append (a b : String) :
    (a ++ b).length = a.length + b.length := by
  cases a with
  | mk la =>
    cases b with
    | mk lb =>
      show (la ++ lb).length = la.length + lb.length
      exact List.length_append la lb

/-- `jsSubstring` caps the length at `n`. -/
theorem jsSubstring_length_le (s : String) (n : Nat) :
    (jsSubstring s n).length ≤ n := by
  show (s.data.take n).length ≤ n
  exact List.length_take_le n s.data

/-- After the 1 MB cap the body holds at most the cap plus the 42-character
truncation marker. -/
theorem truncateBody_length_le (s : String) :
    (truncateBody s).length ≤ 1000042 := by
  unfold truncateBody
  split
  · rw [string_length_append]
    have h1 : (jsSubstring s 1000000).length ≤ 1000000 :=
      jsSubstring_length_le s 1000000
    have h2 : truncMarker.length = 42 := by decide
    omega
  · omega

/-- The body of a `parseEMLCore` result is the truncation of the joined
body lines. -/
theorem parseEMLCore_body (san : List Char → List Char) (content : String) :
    (parseEMLCore san content).body =
      truncateBody (String.mk (joinNL (emlFinalState san content).bodyLines)) :=
  rfl

/-- The headers of a `parseEMLCore` result are the first 1000 collected
headers. -/
theorem parseEMLCore_headers (san : List Char → List Char)
    (content : String) :
    (parseEMLCore san content).headers =
      (emlFinalState san content).headers.take 1000 :=
  rfl

/-- The body of a `parseMsgData` result is the truncation of the selected
body source. -/
theorem parseMsgData_body (d : MsgData) :
    (parseMsgData d).body = truncateBody (msgBody d) :=
  rfl

/-- The headers of a `parseMsgData` result are the first 1000 headers of
the raw-blob tier. -/
theorem parseMsgData_headers (d : MsgData) :
    (parseMsgData d).headers =
      (if d.headers ≠ "" then parseMsgHeaders d.headers else []).take 1000 :=
  rfl

/-- C1: for every input string, `parseEMLFile` (a total function of the
input in this embedding, so it terminates normally and never throws)
returns a `MSGContent` record whose `fileType` is `EML`; malformed header
sections or bodies only lead to partial or empty headers, never to a
failure value. -/
theorem parseEMLFile_total_fileType_EML (content : String) :
    (parseEMLFile content).fileType = FileType.EML :=
  rfl

/-- C2, counterexample: on the spec's folded input the parser produces no
header named `X` at all (the only header name is `Subject`) and the
subject is not `"Hello"` — the line `" X: a"` begins with whitespace, so
the parser folds it (and `"  b"`) into the current `Subject` header
instead of starting a new one. -/
theorem emlFolded_counterexample :
    (parseEMLFile emlFoldedInput).headers.map MSGHeader.name = ["Subject"] ∧
    (parseEMLFile emlFoldedInput).subject ≠ "Hello" := by
  decide

/-- C2, amended: parsing
`"Subject: Hello\r\n X: a\r\n  b\r\n\r\nBody line"` yields a single header
`Subject` whose value is `"Hello X: a b"` (the whitespace-prefixed lines
are folded into `Subject`, their trimmed text joined by single spaces),
subject scalar `"Hello X: a b"`, and body `"Body line"`. -/
theorem emlFolded_amended :
    parseEMLFile emlFoldedInput =
      ⟨[⟨"Subject", "Hello X: a b"⟩], "Body line", "Hello X: a b", "", "",
        "", FileType.EML⟩ := by
  decide

/-- C3: the EML text `"Subject: Hi\r\nFrom: a@b.com"`, which contains no
blank line, yields exactly the two headers `Subject: Hi` and
`From: a@b.com` — the final pending header is flushed after the line loop
ends while still in the header section. -/
theorem emlNoBlank_two_headers :
    (parseEMLFile emlNoBlankInput).headers =
      [⟨"Subject", "Hi"⟩, ⟨"From", "a@b.com"⟩] ∧
    (parseEMLFile emlNoBlankInput).headers.length = 2 := by
  decide

/-- C8: whatever detail the underlying binary decoder throws, the `.msg`
branch of `parseEmailFile` rejects with the single generic message
`"Failed to parse email file"`; the surfaced error is a constant, so the
original exception's detail is never contained in it. -/
theorem msg_decoder_failure_generic (e : String) :
    parseEmailFileMSG (Except.error e) =
      Except.error "Failed to parse email file" :=
  rfl

/-- C4: for every parse result — either `parseEMLFile` variant on any
text, or the MSG normalization on any decoder output — the headers
sequence keeps at most the first 1000 entries, every header name has at
most 500 characters and every header value at most 2000. -/
theorem parse_header_caps :
    (∀ content : String, (parseEMLFile content).headers.length ≤ 1000) ∧
    (∀ (content : String) (h : MSGHeader),
      h ∈ (parseEMLFile content).headers →
        h.name.length ≤ 500 ∧ h.value.length ≤ 2000) ∧
    (∀ content : String, (parseEMLFileMsg content).headers.length ≤ 1000) ∧
    (∀ (content : String) (h : MSGHeader),
      h ∈ (parseEMLFileMsg content).headers →
        h.name.length ≤ 500 ∧ h.value.length ≤ 2000) ∧
    (∀ d : MsgData, (parseMsgData d).headers.length ≤ 1000) ∧
    (∀ (d : MsgData) (h : MSGHeader),
      h ∈ (parseMsgData d).headers →
        h.name.length ≤ 500 ∧ h.value.length ≤ 2000) := by
  have hEml : ∀ n v : List Char,
      (String.mk (sanNameEml n)).length ≤ 500 ∧
      (String.mk ((jsTrim v).take 2000)).length ≤ 2000 := by
    intro n v
    exact ⟨List.length_take_le 500 (jsTrim n), List.length_take_le 2000 _⟩
  have hMsg : ∀ n v : List Char,
      (String.mk (sanNameMsg n)).length ≤ 500 ∧
      (String.mk ((jsTrim v).take 2000)).length ≤ 2000 := by
    intro n v
    exact ⟨List.length_take_le 500 _, List.length_take_le 2000 _⟩
  have hTier : ∀ b a : List Char,
      (String.mk
          (((jsTrim b).filter (fun c => !(c = '<' || c = '>'))).take 500)).length ≤
        500 ∧
      (String.mk ((jsTrim a).take 2000)).length ≤ 2000 := by
    intro b a
    exact ⟨List.length_take_le 500 _, List.length_take_le 2000 _⟩
  refine ⟨?_, ?_, ?_, ?_, ?_, ?_⟩
  · intro c
    exact List.length_take_le 1000 (emlFinalState sanNameEml c).headers
  · intro c h hm
    exact parseEMLCore_pred sanNameEml
      (fun h => h.name.length ≤ 500 ∧ h.value.length ≤ 2000) hEml c h hm
  · intro c
    exact List.length_take_le 1000 (emlFinalState sanNameMsg c).headers
  · intro c h hm
    exact parseEMLCore_pred sanNameMsg
      (fun h => h.name.length ≤ 500 ∧ h.value.length ≤ 2000) hMsg c h hm
  · intro d
    exact List.length_take_le 1000 _
  · intro d h hm
    exact parseMsgData_pred
      (fun h => h.name.length ≤ 500 ∧ h.value.length ≤ 2000) hTier d h hm

/-- Witness for C4: the caps hold at the concrete parse of `"A: b"`. -/
theorem parse_header_caps_witness :
    ("A" : String).length ≤ 500 ∧ ("b" : String).length ≤ 2000 :=
  parse_header_caps.2.1 "A: b" ⟨"A", "b"⟩ (by decide)

/-- C5, counterexample: a decoder output whose plain body has 1,000,001
characters produces a parse result whose body is longer than 1,000,000
characters — the code first caps the body at 1,000,000 characters and then
appends the 42-character truncation marker, so the post-truncation length
is 1,000,042. -/
theorem body_cap_counterexample :
    1000000 < (parseMsgData msgDataBigBody).body.length := by
  have hlen : bigBody.length = 1000001 := by
    show (List.replicate 1000001 'a').length = 1000001
    exact List.length_replicate 1000001 'a'
  have hne : bigBody ≠ "" := by
    intro h
    rw [h] at hlen
    exact absurd hlen (by decide)
  have hbody : msgBody msgDataBigBody = bigBody := by
    unfold msgBody
    split
    · rfl
    · next hc => exact absurd (not_not.mp hc) hne
  rw [parseMsgData_body, hbody]
  unfold truncateBody
  rw [if_pos (by omega)]
  rw [string_length_append]
  have hsub : (jsSubstring bigBody 1000000).length = 1000000 := by
    show (bigBody.data.take 1000000).length = 1000000
    rw [List.length_take]
    have hdl : bigBody.data.length = 1000001 := hlen
    rw [hdl]
    omega
  have hmark : truncMarker.length = 42 := by decide
  omega

/-- C5, amended: for every parse result (EML or MSG) the body length is at
most 1,000,042 — the 1,000,000-character cap plus the 42-character
truncation marker that is appended when the raw body exceeds the cap; an
untruncated body is at most 1,000,000 characters. -/
theorem body_cap_amended :
    (∀ content : String, (parseEMLFile content).body.length ≤ 1000042) ∧
    (∀ content : String, (parseEMLFileMsg content).body.length ≤ 1000042) ∧
    (∀ d : MsgData, (parseMsgData d).body.length ≤ 1000042) := by
  refine ⟨?_, ?_, ?_⟩
  · intro c
    exact truncateBody_length_le _
  · intro c
    exact truncateBody_length_le _
  · intro d
    exact truncateBody_length_le _

set_option maxRecDepth 40000 in
/-- C6, counterexample: the MSG path does not cap the `to` scalar at 200
characters — a decoder output with a single `"to"` recipient whose address
has 201 characters yields a `to` scalar of length 201. -/
theorem scalar_caps_counterexample :
    200 < (parseMsgData msgDataLongTo).toAddr.length := by
  decide

/-- C6, amended: the convenience scalars are length-capped at 500
(subject), 200 (from), 200 (to) and 100 (date) in both EML parser
variants; the MSG path caps subject at 500, from at 200 and date at 100,
but its `to` scalar is only capped at 10 joined recipients, not at 200
characters. -/
theorem scalar_caps_amended :
    (∀ content : String,
      (parseEMLFile content).subject.length ≤ 500 ∧
      (parseEMLFile content).fromAddr.length ≤ 200 ∧
      (parseEMLFile content).toAddr.length ≤ 200 ∧
      (parseEMLFile content).date.length ≤ 100) ∧
    (∀ content : String,
      (parseEMLFileMsg content).subject.length ≤ 500 ∧
      (parseEMLFileMsg content).fromAddr.length ≤ 200 ∧
      (parseEMLFileMsg content).toAddr.length ≤ 200 ∧
      (parseEMLFileMsg content).date.length ≤ 100) ∧
    (∀ d : MsgData,
      (parseMsgData d).subject.length ≤ 500 ∧
      (parseMsgData d).fromAddr.length ≤ 200 ∧
      (parseMsgData d).date.length ≤ 100) := by
  refine ⟨?_, ?_, ?_⟩
  · intro c
    exact ⟨List.length_take_le 500 _, List.length_take_le 200 _,
      List.length_take_le 200 _, List.length_take_le 100 _⟩
  · intro c
    exact ⟨List.length_take_le 500 _, List.length_take_le 200 _,
      List.length_take_le 200 _, List.length_take_le 100 _⟩
  · intro d
    exact ⟨jsSubstring_length_le _ 500, jsSubstring_length_le _ 200,
      jsSubstring_length_le _ 100⟩

/-- C7: the `to` scalar of every MSG parse result equals the spec's
description (filter to recipient-type `"to"` or unspecified, take
address-or-name, drop empties, cap at 10, join with `", "`); and a decoder
output with 15 `"to"` recipients yields exactly the first 10 addresses,
comma-space-joined. -/
theorem to_scalar_refines_spec :
    (∀ d : MsgData, (parseMsgData d).toAddr = toScalarSpec d.recipients) ∧
    (parseMsgData msgData15To).toAddr =
      "e1, e2, e3, e4, e5, e6, e7, e8, e9, e10" := by
  constructor
  · intro d
    show toEmails d.recipients = toScalarSpec d.recipients
    unfold toEmails toScalarSpec
    have hfil :
        d.recipients.filter
            (fun r => r.recipType = "to" || r.recipType = "") =
          d.recipients.filter
            (fun r => r.recipType = "to" ∨ r.recipType = "") := by
      apply List.filter_congr
      intro r hr
      by_cases h1 : r.recipType = "to"
      · simp [h1]
      · by_cases h2 : r.recipType = ""
        · simp [h1, h2]
        · simp [h1, h2]
    rw [hfil]
  · decide

set_option maxRecDepth 100000 in
/-- C9, counterexample: the regex cleaning of `createSafeHTMLPreview`
applied to `"<div onclick='x()'>ok<script>evil()</script></div>"` does not
leave exactly `"<div>ok</div>"` — the event-handler regex removes only the
matched `onclick='x()'` text, leaving the space that preceded the
attribute, and the function's full result additionally wraps the cleaned
markup in a fixed document template. -/
theorem sanitize_example_counterexample :
    cleanHTML sanitizeExampleInput ≠ "<div>ok</div>" ∧
    createSafeHTMLPreview sanitizeExampleInput ≠ "<div>ok</div>" := by
  decide

set_option maxRecDepth 100000 in
/-- C9, amended: the cleaning chain applied to
`"<div onclick='x()'>ok<script>evil()</script></div>"` removes the script
tag with its content and the `onclick` attribute, leaving
`"<div >ok</div>"` (with the residual space where the attribute stood;
safe text preserved), and `createSafeHTMLPreview` returns that cleaned
markup embedded in its fixed document template. -/
theorem sanitize_example_amended :
    cleanHTML sanitizeExampleInput = "<div >ok</div>" ∧
    createSafeHTMLPreview sanitizeExampleInput =
      docHead ++ "<div >ok</div>" ++ docTail := by
  decide

/-- No `<` or `>` survives the name filter `replace(/[<>]/g, '')` (and a
subsequent `take`). -/
theorem noAngle_of_filtered (l : List Char) (n : Nat) :
    '<' ∉ (l.filter (fun c => !(c = '<' || c = '>'))).take n ∧
    '>' ∉ (l.filter (fun c => !(c = '<' || c = '>'))).take n := by
  constructor
  · intro hmem
    have h2 := List.mem_filter.mp (List.take_subset n _ hmem)
    simp at h2
  · intro hmem
    have h2 := List.mem_filter.mp (List.take_subset n _ hmem)
    simp at h2

/-- C10: every header name produced by the `parseEMLFile` variant inside
`src/lib/msg-parser.ts` and by the MSG raw-header-blob tier contains no
`<` and no `>` (both are deleted from the name before the header is
inserted), while header values are not filtered this way — the concrete
parse of `"A: <b>"` keeps `<b>` as a value. -/
theorem header_names_no_angle :
    (∀ (content : String) (h : MSGHeader),
      h ∈ (parseEMLFileMsg content).headers →
        '<' ∉ h.name.data ∧ '>' ∉ h.name.data) ∧
    (∀ (d : MsgData) (h : MSGHeader),
      h ∈ (parseMsgData d).headers →
        '<' ∉ h.name.data ∧ '>' ∉ h.name.data) ∧
    (parseEMLFileMsg "A: <b>").headers = [⟨"A", "<b>"⟩] := by
  refine ⟨?_, ?_, by decide⟩
  · intro c h hm
    refine parseEMLCore_pred sanNameMsg
      (fun h => '<' ∉ h.name.data ∧ '>' ∉ h.name.data) ?_ c h hm
    intro n v
    exact noAngle_of_filtered n 500
  · intro d h hm
    refine parseMsgData_pred
      (fun h => '<' ∉ h.name.data ∧ '>' ∉ h.name.data) ?_ d h hm
    intro b a
    exact noAngle_of_filtered (jsTrim b) 500

/-- Witness for C10: applied to the concrete parse of `"<A>: v"`, whose
single header has name `"A"` (the angle brackets of `"<A>"` deleted). -/
theorem header_names_no_angle_witness :
    '<' ∉ ("A" : String).data ∧ '>' ∉ ("A" : String).data :=
  header_names_no_angle.1 "<A>: v" ⟨"A", "v"⟩ (by decide)
